import Mathlib

/-!
Verification of the NanoNet sequence encoder and structure writer
(file NanoNet.py): the sequence padder pad_seq, the one-hot encoder
generate_input, and the PDB writer matrix_to_pdb, shallowly embedded
as Lean functions over lists of characters.

Python strings are modelled as lists of characters. Python integer
division (the // operator) is floor division, modelled with Int.fdiv;
multiplying a string by a non-positive integer yields the empty string,
modelled with Int.toNat (which clamps negatives to zero) feeding
List.replicate.
-/

set_option maxRecDepth 40000

namespace NanoNet

/-- NB_MAX_LENGTH = 140 (NanoNet.py line 19). -/
def NB_MAX_LENGTH : Nat := 140

/-- FEATURE_NUM = 22 (NanoNet.py line 20). -/
def FEATURE_NUM : Nat := 22

/-- The residue-to-index dictionary AA_DICT (NanoNet.py lines 21-22).
A Python dict lookup raises KeyError on a missing key, modelled by
returning none. -/
def AA_DICT (c : Char) : Option Nat :=
  if c = 'A' then some 0
  else if c = 'C' then some 1
  else if c = 'D' then some 2
  else if c = 'E' then some 3
  else if c = 'F' then some 4
  else if c = 'G' then some 5
  else if c = 'H' then some 6
  else if c = 'I' then some 7
  else if c = 'K' then some 8
  else if c = 'L' then some 9
  else if c = 'M' then some 10
  else if c = 'N' then some 11
  else if c = 'P' then some 12
  else if c = 'Q' then some 13
  else if c = 'R' then some 14
  else if c = 'S' then some 15
  else if c = 'T' then some 16
  else if c = 'W' then some 17
  else if c = 'Y' then some 18
  else if c = 'V' then some 19
  else if c = '-' then some 21
  else if c = 'X' then some 20
  else none

/-- pad_seq (NanoNet.py lines 27-39):
up_pad = (NB_MAX_LENGTH - seq_len) // 2,
down_pad = NB_MAX_LENGTH - up_pad - seq_len,
result = up_pad * "-" + seq + down_pad * "-".
Python // is floor division (Int.fdiv) and repeating a string a
non-positive number of times gives the empty string (Int.toNat). -/
def pad_seq (seq : List Char) : List Char :=
  List.replicate (Int.fdiv ((NB_MAX_LENGTH : Int) - seq.length) 2).toNat '-' ++ seq ++
    List.replicate ((NB_MAX_LENGTH : Int) -
      Int.fdiv ((NB_MAX_LENGTH : Int) - seq.length) 2 - seq.length).toNat '-'

/-- One row of the one-hot matrix (NanoNet.py lines 69-71): numpy
starts from a zero row of width FEATURE_NUM and the loop body
seq_matrix[i][AA_DICT[seq[i]]] = 1 sets the looked-up column to 1;
a missing dictionary key raises KeyError, modelled by none. -/
def encodeRow (c : Char) : Option (List Nat) :=
  (AA_DICT c).map (fun idx => (List.replicate FEATURE_NUM 0).set idx 1)

/-- The row-building loop of generate_input (NanoNet.py lines 70-71),
one row per position; the first KeyError aborts the computation. -/
def encodeAll : List Char → Option (List (List Nat))
  | [] => some []
  | c :: rest =>
    match encodeRow c with
    | some row => (encodeAll rest).map (fun m => row :: m)
    | none => none

/-- generate_input (NanoNet.py lines 54-73): pads the sequence, then
builds the (NB_MAX_LENGTH, FEATURE_NUM) one-hot matrix, reading the
first NB_MAX_LENGTH characters of the padded sequence (the loop runs
for i in range(NB_MAX_LENGTH); the padded sequence always has at
least NB_MAX_LENGTH characters, so taking that prefix is exactly the
set of positions the loop indexes). -/
def generate_input (seq : List Char) : Option (List (List Nat)) :=
  encodeAll ((pad_seq seq).take NB_MAX_LENGTH)

/-- The unknown-residue warning condition (NanoNet.py lines 62-63):
a warning is printed exactly when the sequence contains an X; it is
a print, not an exception. -/
def has_unknown_warning (seq : List Char) : Bool := seq.contains 'X'

/-- The front pad count of pad_seq, as a natural number, for sequences
within the length bound. -/
def front_pad (n : Nat) : Nat := (NB_MAX_LENGTH - n) / 2

/-- The back pad count of pad_seq, as a natural number, for sequences
within the length bound. -/
def back_pad (n : Nat) : Nat := NB_MAX_LENGTH - front_pad n - n

/-- Modelled from the external library Bio.PDB.Polypeptide.one_to_three
(imported by NanoNet.py line 8): the canonical table from one-letter
amino-acid codes to three-letter codes for the 20 standard residues;
any other character raises KeyError, modelled by none. -/
def one_to_three (c : Char) : Option String :=
  if c = 'A' then some "ALA"
  else if c = 'C' then some "CYS"
  else if c = 'D' then some "ASP"
  else if c = 'E' then some "GLU"
  else if c = 'F' then some "PHE"
  else if c = 'G' then some "GLY"
  else if c = 'H' then some "HIS"
  else if c = 'I' then some "ILE"
  else if c = 'K' then some "LYS"
  else if c = 'L' then some "LEU"
  else if c = 'M' then some "MET"
  else if c = 'N' then some "ASN"
  else if c = 'P' then some "PRO"
  else if c = 'Q' then some "GLN"
  else if c = 'R' then some "ARG"
  else if c = 'S' then some "SER"
  else if c = 'T' then some "THR"
  else if c = 'W' then some "TRP"
  else if c = 'Y' then some "TYR"
  else if c = 'V' then some "VAL"
  else none

/-- The one_letter_code computation (NanoNet.py line 98):
"UNK" if seq[aa] == "X" else Polypeptide.one_to_three(seq[aa]). -/
def codeOf (c : Char) : Option String :=
  if c = 'X' then some "UNK" else one_to_three c

/-- The backbone atom-name list (NanoNet.py line 92). -/
def backbone : List String := ["N", "CA", "C", "O", "CB"]

/-- The indexed backbone list: models the inner loop header
for j in range(len(backbone)) (NanoNet.py line 93), pairing each
index j with backbone[j]. -/
def backboneIndexed : List (Nat × String) := [(0, "N"), (1, "CA"), (2, "C"), (3, "O"), (4, "CB")]

/-- Errors the writer can raise: indexError models a numpy IndexError
from an out-of-bounds coord_matrix access (the behaviour the spec
calls ShapeMismatch), unknownResidue a KeyError from the three-letter
lookup (the spec's UnknownResidue). -/
inductive PdbError where
  | indexError
  | unknownResidue
deriving DecidableEq

/-- One atom record written by ATOM_LINE.format (NanoNet.py lines
102-105), keeping the fields the claims are about: the global atom
serial k, the atom name backbone[j], the residue three-letter code,
the residue serial i, and the three coordinates read from the row.
The pure fixed-width spacing strings of the line are not modelled. -/
structure AtomRecord (α : Type) where
  serial : Nat
  atomName : String
  resName : String
  resSeq : Nat
  x : α
  y : α
  z : α
deriving DecidableEq

/-- The inner atom loop of matrix_to_pdb (NanoNet.py lines 93-106)
for one residue: walks the indexed backbone names with the coordinate
row of position aa, the residue serial i and the incoming atom serial
k. Per iteration, in source order: read row[3j], row[3j+1], row[3j+2]
(lines 95-97; an out-of-range read raises IndexError), compute the
three-letter code (line 98; KeyError for a residue with no code),
skip the CB atom of a Glycine without allocating a serial (lines
99-100), otherwise write the record and increment k (lines 102-106).
Returns the records written, the final k, and the error if one was
raised; records written before the error stay written. -/
def emitAtoms {α : Type} (row : List α) (c : Char) (i : Nat) :
    List (Nat × String) → Nat → List (AtomRecord α) × Nat × Option PdbError
  | [], k => ([], k, none)
  | (j, nm) :: rest, k =>
    match row[3*j]?, row[3*j+1]?, row[3*j+2]? with
    | some x, some y, some z =>
      match codeOf c with
      | some code =>
        if c = 'G' ∧ nm = "CB" then emitAtoms row c i rest k
        else
          match emitAtoms row c i rest (k+1) with
          | (recs, kf, e) => (⟨k, nm, code, i, x, y, z⟩ :: recs, kf, e)
      | none => ([], k, some PdbError.unknownResidue)
    | _, _, _ => ([], k, some PdbError.indexError)

/-- The outer residue loop of matrix_to_pdb (NanoNet.py lines 85-107)
over the remaining padded-sequence characters, tracking the position
aa, the residue serial i (starts at 1) and the atom serial k (starts
at 1). A gap character is skipped entirely (line 88); a non-gap
character reads coord_matrix[aa] (IndexError when out of bounds,
before anything is written for that residue), emits its atoms, then
advances the residue serial (line 107). Returns all records written
in order, the final i, the final k, and the error if one was raised;
on an error, records already written stay written and the loop stops
(the Python exception propagates). -/
def writeLoop {α : Type} (coord : List (List α)) :
    List Char → Nat → Nat → Nat → List (AtomRecord α) × Nat × Nat × Option PdbError
  | [], _, i, k => ([], i, k, none)
  | c :: rest, aa, i, k =>
    if c ≠ '-' then
      match coord[aa]? with
      | some row =>
        match emitAtoms row c i backboneIndexed k with
        | (recs, kf, none) =>
          match writeLoop coord rest (aa + 1) (i + 1) kf with
          | (recs2, i2, k2, e2) => (recs ++ recs2, i2, k2, e2)
        | (recs, kf, some e) => (recs, i, kf, some e)
      | none => ([], i, k, some PdbError.indexError)
    else writeLoop coord rest (aa + 1) i k

/-- matrix_to_pdb (NanoNet.py lines 76-108): pads the sequence (line
84), then runs the residue loop from position 0 with both serial
counters at 1. The closing END line (line 108) carries no atom data
and is not modelled. -/
def matrix_to_pdb {α : Type} (seq : List Char) (coord : List (List α)) :
    List (AtomRecord α) × Nat × Nat × Option PdbError :=
  writeLoop coord (pad_seq seq) 0 1 1

/-- Number of non-gap characters: the residues the writer emits. -/
def countNonGap (l : List Char) : Nat := l.countP (fun c => c != '-')

/-- Total number of atom records the writer emits for a character
list: 0 for a gap, 4 for a Glycine, 5 for any other residue. -/
def atomCount : List Char → Nat
  | [] => 0
  | c :: rest => (if c = '-' then 0 else if c = 'G' then 4 else 5) + atomCount rest

/-- The 22-symbol alphabet: the domain of AA_DICT (NanoNet.py lines
21-22): the 20 standard residues, the gap symbol and the unknown
symbol. -/
def ALPHABET : List Char :=
  ['A', 'C', 'D', 'E', 'F', 'G', 'H', 'I', 'K', 'L', 'M', 'N', 'P',
   'Q', 'R', 'S', 'T', 'W', 'Y', 'V', '-', 'X']

theorem fdiv_toNat_eq (n : Nat) (h : n ≤ NB_MAX_LENGTH) :
    (Int.fdiv ((NB_MAX_LENGTH : Int) - n) 2).toNat = front_pad n := by
  rw [Int.fdiv_eq_ediv _ (by norm_num)]
  unfold front_pad NB_MAX_LENGTH
  unfold NB_MAX_LENGTH at h
  omega

theorem down_toNat_eq (n : Nat) (h : n ≤ NB_MAX_LENGTH) :
    ((NB_MAX_LENGTH : Int) - Int.fdiv ((NB_MAX_LENGTH : Int) - n) 2 - n).toNat = back_pad n := by
  rw [Int.fdiv_eq_ediv _ (by norm_num)]
  unfold back_pad front_pad NB_MAX_LENGTH
  unfold NB_MAX_LENGTH at h
  omega

/-- Structural form of pad_seq on sequences within the length bound. -/
theorem pad_seq_eq (seq : List Char) (h : seq.length ≤ NB_MAX_LENGTH) :
    pad_seq seq =
      List.replicate (front_pad seq.length) '-' ++ seq ++
        List.replicate (back_pad seq.length) '-' := by
  unfold pad_seq
  rw [fdiv_toNat_eq _ h, down_toNat_eq _ h]

theorem pad_seq_length (seq : List Char) (h : seq.length ≤ NB_MAX_LENGTH) :
    (pad_seq seq).length = NB_MAX_LENGTH := by
  rw [pad_seq_eq seq h]
  simp [front_pad, back_pad, NB_MAX_LENGTH]
  unfold NB_MAX_LENGTH at h
  omega

/-- C1: For every sequence of length at most 140, pad_seq returns
front gap symbols ++ sequence ++ back gap symbols, where
front = (140 - length) / 2 and back = 140 - front - length; for odd
total padding the extra gap goes to the back: length 139 gives front
0 and back 1, length 3 gives front 68 and back 69. -/
theorem pad_seq_spec (seq : List Char) (h : seq.length ≤ 140) :
    pad_seq seq =
      List.replicate ((140 - seq.length) / 2) '-' ++ seq ++
        List.replicate (140 - (140 - seq.length) / 2 - seq.length) '-' ∧
    (seq.length = 139 → (140 - seq.length) / 2 = 0 ∧
      140 - (140 - seq.length) / 2 - seq.length = 1) ∧
    (seq.length = 3 → (140 - seq.length) / 2 = 68 ∧
      140 - (140 - seq.length) / 2 - seq.length = 69) := by
  refine ⟨pad_seq_eq seq h, ?_, ?_⟩
  · intro h139
    rw [h139]
    omega
  · intro h3
    rw [h3]
    omega

theorem pad_seq_spec_witness :
    (List.replicate 3 'C').length ≤ 140 ∧
    (pad_seq (List.replicate 3 'C') =
      List.replicate ((140 - (List.replicate 3 'C').length) / 2) '-' ++
        List.replicate 3 'C' ++
        List.replicate (140 - (140 - (List.replicate 3 'C').length) / 2 -
          (List.replicate 3 'C').length) '-' ∧
    ((List.replicate 3 'C').length = 139 →
      (140 - (List.replicate 3 'C').length) / 2 = 0 ∧
      140 - (140 - (List.replicate 3 'C').length) / 2 -
        (List.replicate 3 'C').length = 1) ∧
    ((List.replicate 3 'C').length = 3 →
      (140 - (List.replicate 3 'C').length) / 2 = 68 ∧
      140 - (140 - (List.replicate 3 'C').length) / 2 -
        (List.replicate 3 'C').length = 69)) :=
  ⟨by decide, pad_seq_spec (List.replicate 3 'C') (by decide)⟩

/-- C6 counterexample: on a sequence of length 141 (greater than 140),
pad_seq does not fail at all: it returns normally, with the input
unchanged; no SequenceTooLong error exists anywhere in the code. -/
theorem pad_seq_no_error_at_141 :
    pad_seq (List.replicate 141 'A') = List.replicate 141 'A' := by decide

/-- Helper: on a sequence longer than the window, pad_seq is the
identity (both computed pad counts clamp to zero repetitions). -/
theorem pad_seq_of_long (seq : List Char) (h : 140 < seq.length) :
    pad_seq seq = seq := by
  have hup : (Int.fdiv ((NB_MAX_LENGTH : Int) - seq.length) 2).toNat = 0 := by
    rw [Int.fdiv_eq_ediv _ (by norm_num)]
    unfold NB_MAX_LENGTH
    omega
  have hdown : (((NB_MAX_LENGTH : Int) -
      Int.fdiv ((NB_MAX_LENGTH : Int) - seq.length) 2 - seq.length)).toNat = 0 := by
    rw [Int.fdiv_eq_ediv _ (by norm_num)]
    unfold NB_MAX_LENGTH
    omega
  unfold pad_seq
  rw [hup, hdown]
  simp

/-- C6 amended: for every sequence of length greater than 140, pad_seq
raises no error and never truncates: it returns the input unchanged,
preserving its length. -/
theorem pad_seq_long_no_truncate (seq : List Char) (h : 140 < seq.length) :
    pad_seq seq = seq ∧ (pad_seq seq).length = seq.length := by
  have heq := pad_seq_of_long seq h
  exact ⟨heq, by rw [heq]⟩

theorem pad_seq_long_no_truncate_witness :
    140 < (List.replicate 141 'A').length ∧
    (pad_seq (List.replicate 141 'A') = List.replicate 141 'A' ∧
      (pad_seq (List.replicate 141 'A')).length = (List.replicate 141 'A').length) :=
  ⟨by decide, pad_seq_long_no_truncate (List.replicate 141 'A') (by decide)⟩

/-- C8: for every sequence of length at most 140, pad_seq returns a
string of exact length 140, and the original sequence is recovered by
slicing the padded result at the computed offsets:
take length (drop front (pad_seq seq)) = seq with
front = (140 - length) / 2. -/
theorem pad_seq_roundtrip (seq : List Char) (h : seq.length ≤ 140) :
    (pad_seq seq).length = 140 ∧
    ((pad_seq seq).drop ((140 - seq.length) / 2)).take seq.length = seq := by
  constructor
  · exact pad_seq_length seq h
  · rw [pad_seq_eq seq h]
    rw [List.append_assoc]
    rw [List.drop_left' (by simp [front_pad, NB_MAX_LENGTH])]
    exact List.take_left' rfl

theorem pad_seq_roundtrip_witness :
    (List.replicate 139 'G').length ≤ 140 ∧
    ((pad_seq (List.replicate 139 'G')).length = 140 ∧
      ((pad_seq (List.replicate 139 'G')).drop
        ((140 - (List.replicate 139 'G').length) / 2)).take
          (List.replicate 139 'G').length = List.replicate 139 'G') :=
  ⟨by decide, pad_seq_roundtrip (List.replicate 139 'G') (by decide)⟩

/-- C9: for every sequence of length greater than 140, pad_seq returns
the input unchanged: the front and back pad counts computed by the
formula are non-positive, so no gap symbols are added, no characters
are removed, and no exception is raised; the result has the original
length, not 140. -/
theorem pad_seq_long_identity (seq : List Char) (h : 140 < seq.length) :
    Int.fdiv ((NB_MAX_LENGTH : Int) - seq.length) 2 ≤ 0 ∧
    (NB_MAX_LENGTH : Int) - Int.fdiv ((NB_MAX_LENGTH : Int) - seq.length) 2 -
      seq.length ≤ 0 ∧
    pad_seq seq = seq ∧ (pad_seq seq).length ≠ 140 := by
  have hfd : Int.fdiv ((NB_MAX_LENGTH : Int) - seq.length) 2 =
      ((NB_MAX_LENGTH : Int) - seq.length) / 2 :=
    Int.fdiv_eq_ediv _ (by norm_num)
  have heq := pad_seq_of_long seq h
  refine ⟨?_, ?_, heq, ?_⟩
  · rw [hfd]; unfold NB_MAX_LENGTH; omega
  · rw [hfd]; unfold NB_MAX_LENGTH; omega
  · rw [heq]; omega

theorem pad_seq_long_identity_witness :
    140 < (List.replicate 141 'A').length ∧
    (Int.fdiv ((NB_MAX_LENGTH : Int) - (List.replicate 141 'A').length) 2 ≤ 0 ∧
      (NB_MAX_LENGTH : Int) -
        Int.fdiv ((NB_MAX_LENGTH : Int) - (List.replicate 141 'A').length) 2 -
          (List.replicate 141 'A').length ≤ 0 ∧
      pad_seq (List.replicate 141 'A') = List.replicate 141 'A' ∧
      (pad_seq (List.replicate 141 'A')).length ≠ 140) :=
  ⟨by decide, pad_seq_long_identity (List.replicate 141 'A') (by decide)⟩

/-- Every alphabet symbol has a dictionary index, below FEATURE_NUM. -/
theorem alphabet_lookup (c : Char) (h : c ∈ ALPHABET) :
    ∃ idx, AA_DICT c = some idx ∧ idx < 22 := by
  fin_cases h <;> exact ⟨_, rfl, by norm_num⟩

/-- The gap symbol is in the dictionary, at column 21. -/
theorem AA_DICT_gap : AA_DICT '-' = some 21 := by decide

/-- A zero row of width 22 with column idx set to 1 is a strict
one-hot row: entry 1 at idx and 0 everywhere else. -/
theorem set_replicate_one_hot : ∀ idx, idx < 22 →
    ((List.replicate 22 (0 : Nat)).set idx 1).length = 22 ∧
    ((List.replicate 22 (0 : Nat)).set idx 1)[idx]? = some 1 ∧
    ∀ j, j < 22 → j ≠ idx → ((List.replicate 22 (0 : Nat)).set idx 1)[j]? = some 0 := by
  decide

/-- The encoder loop succeeds on a character list whose symbols are
all in the dictionary, producing one set-column row per position. -/
theorem encodeAll_spec (l : List Char) (h : ∀ c ∈ l, (AA_DICT c).isSome) :
    ∃ m, encodeAll l = some m ∧ m.length = l.length ∧
      ∀ i, ∀ hi : i < l.length, ∃ idx,
        AA_DICT (l.get ⟨i, hi⟩) = some idx ∧
        m[i]? = some ((List.replicate FEATURE_NUM 0).set idx 1) := by
  induction l with
  | nil => exact ⟨[], rfl, rfl, fun i hi => by simp at hi⟩
  | cons c rest ih =>
    obtain ⟨idx, hidx⟩ := Option.isSome_iff_exists.mp (h c (List.mem_cons_self c rest))
    obtain ⟨m, hm, hlen, hrows⟩ := ih (fun a ha => h a (List.mem_cons_of_mem c ha))
    refine ⟨((List.replicate FEATURE_NUM 0).set idx 1) :: m, ?_, by simpa using hlen, ?_⟩
    · unfold encodeAll encodeRow
      rw [hidx, hm]
      rfl
    · intro i hi
      match i with
      | 0 => exact ⟨idx, hidx, by simp⟩
      | n + 1 =>
        obtain ⟨idx', h1, h2⟩ := hrows n (by simpa using hi)
        exact ⟨idx', h1, by simpa using h2⟩

/-- Characters of the padded sequence stay inside the alphabet (the
gap symbol added by padding is itself an alphabet member). -/
theorem pad_chars (seq : List Char) (h1 : seq.length ≤ 140)
    (h2 : ∀ c ∈ seq, c ∈ ALPHABET) :
    ∀ c ∈ pad_seq seq, c ∈ ALPHABET := by
  intro c hc
  rw [pad_seq_eq seq h1] at hc
  rcases List.mem_append.mp hc with hc' | hc'
  · rcases List.mem_append.mp hc' with hc'' | hc''
    · rw [(List.eq_of_mem_replicate hc'')]
      decide
    · exact h2 c hc''
  · rw [(List.eq_of_mem_replicate hc')]
    decide

/-- Main encoder helper: generate_input succeeds on an in-alphabet,
in-bound sequence and row i is the zero row with the dictionary
column of padded character i set to 1. -/
theorem generate_input_rows (seq : List Char) (h1 : seq.length ≤ 140)
    (h2 : ∀ c ∈ seq, c ∈ ALPHABET) :
    ∃ m, generate_input seq = some m ∧ m.length = 140 ∧
      ∀ i, ∀ hi : i < 140, ∃ idx,
        AA_DICT ((pad_seq seq).get ⟨i, by rw [pad_seq_length seq h1]; exact hi⟩) = some idx ∧
        m[i]? = some ((List.replicate FEATURE_NUM 0).set idx 1) := by
  have hlen : (pad_seq seq).length = 140 := pad_seq_length seq h1
  have htake : (pad_seq seq).take NB_MAX_LENGTH = pad_seq seq := by
    apply List.take_of_length_le
    rw [hlen]
    rfl
  obtain ⟨m, hm, hmlen, hrows⟩ := encodeAll_spec (pad_seq seq) (fun c hc => by
    obtain ⟨idx, hidx, _⟩ := alphabet_lookup c (pad_chars seq h1 h2 c hc)
    rw [hidx]
    rfl)
  refine ⟨m, ?_, by rw [hmlen, hlen], ?_⟩
  · unfold generate_input
    rw [htake]
    exact hm
  · intro i hi
    exact hrows i (by rw [hlen]; exact hi)

/-- C2: for every sequence of length at most 140 whose characters are
all in the 22-symbol alphabet, generate_input returns a matrix of 140
rows of width 22 in which every row has exactly one entry equal to 1
and all others 0, and the column of the 1 in row i is the AA_DICT
index of symbol i of the padded sequence. -/
theorem generate_input_one_hot (seq : List Char) (h1 : seq.length ≤ 140)
    (h2 : ∀ c ∈ seq, c ∈ ALPHABET) :
    ∃ m, generate_input seq = some m ∧ m.length = 140 ∧
      ∀ i, ∀ hi : i < 140, ∃ idx row,
        AA_DICT ((pad_seq seq).get ⟨i, by rw [pad_seq_length seq h1]; exact hi⟩) = some idx ∧
        m[i]? = some row ∧ row.length = 22 ∧
        row[idx]? = some 1 ∧ ∀ j, j < 22 → j ≠ idx → row[j]? = some 0 := by
  obtain ⟨m, hm, hmlen, hrows⟩ := generate_input_rows seq h1 h2
  refine ⟨m, hm, hmlen, ?_⟩
  intro i hi
  obtain ⟨idx, hidx, hrow⟩ := hrows i hi
  have hmem : (pad_seq seq).get ⟨i, by rw [pad_seq_length seq h1]; exact hi⟩ ∈ ALPHABET :=
    pad_chars seq h1 h2 _ (List.get_mem _ _ _)
  obtain ⟨idx', hidx', hlt⟩ := alphabet_lookup _ hmem
  rw [hidx] at hidx'
  injection hidx' with hidx'
  rw [← hidx'] at hlt
  obtain ⟨hl, h1', h0⟩ := set_replicate_one_hot idx hlt
  exact ⟨idx, _, hidx, hrow, hl, h1', h0⟩

theorem generate_input_one_hot_witness :
    (['C', 'A', 'R'].length ≤ 140) ∧
    (∃ m, generate_input ['C', 'A', 'R'] = some m ∧ m.length = 140 ∧
      ∀ i, ∀ hi : i < 140, ∃ idx row,
        AA_DICT ((pad_seq ['C', 'A', 'R']).get
          ⟨i, by rw [pad_seq_length ['C', 'A', 'R'] (by decide)]; exact hi⟩) = some idx ∧
        m[i]? = some row ∧ row.length = 22 ∧
        row[idx]? = some 1 ∧ ∀ j, j < 22 → j ≠ idx → row[j]? = some 0) :=
  ⟨by decide, generate_input_one_hot ['C', 'A', 'R'] (by decide) (by decide)⟩

/-- The atom loop on a non-Glycine residue with a full coordinate row
and a known three-letter code: five records, in backbone order, with
consecutive serials starting at k. -/
theorem emitAtoms_spec_noG {α : Type} (row : List α) (c : Char) (i k : Nat) (code : String)
    (hrow : 15 ≤ row.length) (hcode : codeOf c = some code) (hG : c ≠ 'G') :
    emitAtoms row c i backboneIndexed k =
      ([⟨k, "N", code, i, row.get ⟨0, by omega⟩, row.get ⟨1, by omega⟩, row.get ⟨2, by omega⟩⟩,
        ⟨k+1, "CA", code, i, row.get ⟨3, by omega⟩, row.get ⟨4, by omega⟩, row.get ⟨5, by omega⟩⟩,
        ⟨k+2, "C", code, i, row.get ⟨6, by omega⟩, row.get ⟨7, by omega⟩, row.get ⟨8, by omega⟩⟩,
        ⟨k+3, "O", code, i, row.get ⟨9, by omega⟩, row.get ⟨10, by omega⟩, row.get ⟨11, by omega⟩⟩,
        ⟨k+4, "CB", code, i, row.get ⟨12, by omega⟩, row.get ⟨13, by omega⟩, row.get ⟨14, by omega⟩⟩],
       k+5, none) := by
  have hg : ∀ n, ∀ hn : n < 15, row[n]? = some (row.get ⟨n, by omega⟩) := by
    intro n hn
    exact List.getElem?_eq_getElem (by omega)
  simp only [backboneIndexed, emitAtoms,
    hg 0 (by norm_num), hg 1 (by norm_num), hg 2 (by norm_num),
    hg 3 (by norm_num), hg 4 (by norm_num), hg 5 (by norm_num),
    hg 6 (by norm_num), hg 7 (by norm_num), hg 8 (by norm_num),
    hg 9 (by norm_num), hg 10 (by norm_num), hg 11 (by norm_num),
    hg 12 (by norm_num), hg 13 (by norm_num), hg 14 (by norm_num),
    hcode]
  norm_num [hG]

/-- The atom loop on a Glycine residue with a full coordinate row:
exactly four records N, CA, C, O; the CB atom is skipped and no
serial is allocated for it, so the next serial is k+4. -/
theorem emitAtoms_spec_G {α : Type} (row : List α) (i k : Nat)
    (hrow : 15 ≤ row.length) :
    emitAtoms row 'G' i backboneIndexed k =
      ([⟨k, "N", "GLY", i, row.get ⟨0, by omega⟩, row.get ⟨1, by omega⟩, row.get ⟨2, by omega⟩⟩,
        ⟨k+1, "CA", "GLY", i, row.get ⟨3, by omega⟩, row.get ⟨4, by omega⟩, row.get ⟨5, by omega⟩⟩,
        ⟨k+2, "C", "GLY", i, row.get ⟨6, by omega⟩, row.get ⟨7, by omega⟩, row.get ⟨8, by omega⟩⟩,
        ⟨k+3, "O", "GLY", i, row.get ⟨9, by omega⟩, row.get ⟨10, by omega⟩, row.get ⟨11, by omega⟩⟩],
       k+4, none) := by
  have hg : ∀ n, ∀ hn : n < 15, row[n]? = some (row.get ⟨n, by omega⟩) := by
    intro n hn
    exact List.getElem?_eq_getElem (by omega)
  have hcode : codeOf 'G' = some "GLY" := by decide
  simp only [backboneIndexed, emitAtoms,
    hg 0 (by norm_num), hg 1 (by norm_num), hg 2 (by norm_num),
    hg 3 (by norm_num), hg 4 (by norm_num), hg 5 (by norm_num),
    hg 6 (by norm_num), hg 7 (by norm_num), hg 8 (by norm_num),
    hg 9 (by norm_num), hg 10 (by norm_num), hg 11 (by norm_num),
    hg 12 (by norm_num), hg 13 (by norm_num), hg 14 (by norm_num),
    hcode]
  norm_num [show ¬(("N" : String) = "CB") from by decide,
    show ¬(("CA" : String) = "CB") from by decide,
    show ¬(("C" : String) = "CB") from by decide,
    show ¬(("O" : String) = "CB") from by decide]

/-- Unified form of the two atom-loop lemmas, giving the per-residue
record count, serial contiguity, residue serial and code fields. -/
theorem emitAtoms_count {α : Type} (row : List α) (c : Char) (i k : Nat) (code : String)
    (hrow : 15 ≤ row.length) (hcode : codeOf c = some code) :
    ∃ recs, emitAtoms row c i backboneIndexed k = (recs, k + recs.length, none) ∧
      recs.length = (if c = 'G' then 4 else 5) ∧
      recs.map (fun r => r.serial) = List.range' k recs.length ∧
      (∀ r ∈ recs, r.resSeq = i ∧ r.resName = code) := by
  by_cases hG : c = 'G'
  · subst hG
    have hc : code = "GLY" := by
      have : codeOf 'G' = some "GLY" := by decide
      rw [this] at hcode
      injection hcode with h
      exact h.symm
    subst hc
    refine ⟨_, emitAtoms_spec_G row i k hrow, ?_, ?_, ?_⟩
    · rfl
    · norm_num [List.range'_succ]
    · intro r hr
      simp only [List.mem_cons, List.not_mem_nil, or_false] at hr
      rcases hr with h | h | h | h <;> subst h <;> exact ⟨rfl, rfl⟩
  · refine ⟨_, emitAtoms_spec_noG row c i k code hrow hcode hG, ?_, ?_, ?_⟩
    · simp [hG]
    · norm_num [List.range'_succ]
    · intro r hr
      simp only [List.mem_cons, List.not_mem_nil, or_false] at hr
      rcases hr with h | h | h | h | h <;> subst h <;> exact ⟨rfl, rfl⟩

/-- The atom-record total is five per non-gap residue minus one per
Glycine, stated additively. -/
theorem atomCount_eq (l : List Char) :
    5 * countNonGap l = atomCount l + l.count 'G' := by
  induction l with
  | nil => rfl
  | cons c rest ih =>
    rw [List.count_cons]
    rw [show atomCount (c :: rest) =
      (if c = '-' then 0 else if c = 'G' then 4 else 5) + atomCount rest from rfl]
    rw [show countNonGap (c :: rest) =
      countNonGap rest + (if ((c != '-') = true) then 1 else 0) from by
        unfold countNonGap
        rw [List.countP_cons]]
    by_cases hG : c = 'G'
    · subst hG
      rw [if_pos (show (('G' : Char) != '-') = true from by decide)]
      rw [if_neg (show ¬(('G' : Char) = '-') from by decide)]
      rw [if_pos (rfl : ('G' : Char) = 'G')]
      rw [if_pos (show (('G' : Char) == 'G') = true from by decide)]
      omega
    · rw [if_neg (show ¬((c == 'G') = true) from by
        simp only [beq_iff_eq]
        exact hG)]
      by_cases hc : c = '-'
      · subst hc
        rw [if_neg (show ¬((('-' : Char) != '-') = true) from by decide)]
        rw [if_pos (rfl : ('-' : Char) = '-')]
        omega
      · rw [if_pos (show (c != '-') = true from by
          simp only [bne_iff_ne, ne_eq]
          exact hc)]
        rw [if_neg hc, if_neg hG]
        omega

/-- Gap characters contribute nothing to either counting function. -/
theorem count_pad (seq : List Char) (h : seq.length ≤ 140) :
    countNonGap (pad_seq seq) = countNonGap seq ∧
    (pad_seq seq).count 'G' = seq.count 'G' ∧
    atomCount (pad_seq seq) = atomCount seq := by
  have hrep : ∀ n, countNonGap (List.replicate n '-') = 0 := by
    intro n
    simp [countNonGap, List.countP_replicate]
  have hrepG : ∀ n, (List.replicate n '-').count 'G' = 0 := by
    intro n
    rw [List.count_replicate]
    simp
  have hatom : ∀ l1 l2 : List Char, atomCount (l1 ++ l2) = atomCount l1 + atomCount l2 := by
    intro l1 l2
    induction l1 with
    | nil => simp [atomCount]
    | cons c rest ih =>
      rw [List.cons_append]
      rw [show atomCount (c :: (rest ++ l2)) =
        (if c = '-' then 0 else if c = 'G' then 4 else 5) + atomCount (rest ++ l2) from rfl]
      rw [show atomCount (c :: rest) =
        (if c = '-' then 0 else if c = 'G' then 4 else 5) + atomCount rest from rfl]
      rw [ih]
      omega
  have hatomRep : ∀ n, atomCount (List.replicate n '-') = 0 := by
    intro n
    induction n with
    | zero => rfl
    | succ m ih => simp [List.replicate_succ, atomCount, ih]
  rw [pad_seq_eq seq h]
  refine ⟨?_, ?_, ?_⟩
  · simp only [countNonGap, List.countP_append, List.countP_replicate]
    simp
  · simp [List.count_append, hrepG]
  · simp [hatom, hatomRep]

/-- A gap position is skipped: no records, both counters unchanged
(line 88 of NanoNet.py, the loop body guard). -/
theorem writeLoop_gap {α : Type} (coord : List (List α)) (rest : List Char) (aa i k : Nat) :
    writeLoop coord ('-' :: rest) aa i k = writeLoop coord rest (aa + 1) i k := by
  simp [writeLoop]

/-- Main writer helper: on a character list whose non-gap characters
all have three-letter codes, with enough coordinate rows of full
width, the loop succeeds; it returns the residue counter advanced by
the non-gap count, the atom counter advanced by the atom-record
count, records whose serials are exactly the contiguous range
starting at k, and weakly increasing residue serials within
[i, i + non-gap count). -/
theorem writeLoop_spec {α : Type} (coord : List (List α)) (rest : List Char)
    (hrows : ∀ row ∈ coord, 15 ≤ row.length) :
    ∀ aa i k : Nat,
    aa + rest.length ≤ coord.length →
    (∀ c ∈ rest, c ≠ '-' → ∃ code, codeOf c = some code) →
    ∃ recs, writeLoop coord rest aa i k =
        (recs, i + countNonGap rest, k + atomCount rest, none) ∧
      recs.length = atomCount rest ∧
      recs.map (fun r => r.serial) = List.range' k (atomCount rest) ∧
      (∀ r ∈ recs, i ≤ r.resSeq ∧ r.resSeq < i + countNonGap rest) ∧
      (recs.map (fun r => r.resSeq)).Pairwise (fun a b => a ≤ b) := by
  induction rest with
  | nil =>
    intro aa i k _ _
    exact ⟨[], by simp [writeLoop, countNonGap, atomCount], rfl, rfl,
      fun r hr => absurd hr (List.not_mem_nil r), by simp⟩
  | cons c rest ih =>
    intro aa i k hcoord hcodes
    by_cases hc : c = '-'
    · subst hc
      have hcng : countNonGap ('-' :: rest) = countNonGap rest := by
        simp [countNonGap, List.countP_cons]
      have hatom : atomCount ('-' :: rest) = atomCount rest := by simp [atomCount]
      obtain ⟨recs, heq, hlen, hser, hbound, hsort⟩ :=
        ih (aa + 1) i k (by simp at hcoord ⊢; omega)
          (fun c hc => hcodes c (List.mem_cons_of_mem _ hc))
      exact ⟨recs, by rw [writeLoop_gap, heq, hcng, hatom], by rw [hlen, hatom],
        by rw [hser, hatom], by rw [hcng]; exact hbound, hsort⟩
    · have haa : aa < coord.length := by simp at hcoord; omega
      have hrowlen : 15 ≤ coord[aa].length := hrows _ (List.getElem_mem haa)
      obtain ⟨code, hcode⟩ := hcodes c (List.mem_cons_self _ _) hc
      obtain ⟨recs1, hemit, hlen1, hser1, hres1⟩ :=
        emitAtoms_count coord[aa] c i k code hrowlen hcode
      obtain ⟨recs2, heq2, hlen2, hser2, hbound2, hsort2⟩ :=
        ih (aa + 1) (i + 1) (k + recs1.length) (by simp at hcoord ⊢; omega)
          (fun c hc => hcodes c (List.mem_cons_of_mem _ hc))
      have hcng : countNonGap (c :: rest) = countNonGap rest + 1 := by
        simp [countNonGap, List.countP_cons, hc]
      have hatom : atomCount (c :: rest) = recs1.length + atomCount rest := by
        by_cases hG : c = 'G'
        · subst hG
          rw [hlen1]
          simp [atomCount]
        · rw [hlen1]
          simp [atomCount, hc, hG]
      have hwl : writeLoop coord (c :: rest) aa i k =
          (recs1 ++ recs2, (i + 1) + countNonGap rest, (k + recs1.length) + atomCount rest,
            none) := by
        simp only [writeLoop, if_pos hc, List.getElem?_eq_getElem haa, hemit, heq2]
      refine ⟨recs1 ++ recs2, ?_, ?_, ?_, ?_, ?_⟩
      · rw [hwl, hcng, hatom]
        simp only [Prod.mk.injEq]
        refine ⟨?_, ?_, ?_, ?_⟩ <;> first | trivial | omega
      · rw [List.length_append, hlen2, hatom]
      · rw [List.map_append, hser1, hser2, hatom, List.range'_append_1]
        rw [Nat.add_comm (atomCount rest) recs1.length]
      · intro r hr
        rw [hcng]
        rcases List.mem_append.mp hr with h | h
        · have := (hres1 r h).1
          omega
        · have := hbound2 r h
          omega
      · rw [List.map_append]
        rw [List.pairwise_append]
        refine ⟨?_, hsort2, ?_⟩
        · rw [List.pairwise_map]
          refine List.pairwise_of_forall_mem_list ?_
          intro a ha b hb
          rw [(hres1 a ha).1, (hres1 b hb).1]
        · intro a ha b hb
          rw [List.mem_map] at ha hb
          obtain ⟨ra, hra, hva⟩ := ha
          obtain ⟨rb, hrb, hvb⟩ := hb
          have h1 := (hres1 ra hra).1
          have h2 := (hbound2 rb hrb).1
          omega

/-- Every non-gap alphabet symbol has a three-letter code (UNK for
the unknown symbol). -/
theorem alphabet_code (c : Char) (h : c ∈ ALPHABET) (hne : c ≠ '-') :
    ∃ code, codeOf c = some code := by
  fin_cases h <;> first | exact absurd rfl hne | exact ⟨_, rfl⟩

/-- Non-gap characters of the padded sequence all have codes. -/
theorem pad_codes (seq : List Char) (h1 : seq.length ≤ 140)
    (h2 : ∀ c ∈ seq, c ∈ ALPHABET) :
    ∀ c ∈ pad_seq seq, c ≠ '-' → ∃ code, codeOf c = some code :=
  fun c hc hne => alphabet_code c (pad_chars seq h1 h2 c hc) hne

/-- C3: for every in-alphabet sequence and a coordinate matrix with at
least as many rows as needed (one per padded position, each of full
width), the writer succeeds and the total number of atom records is
5 * (number of non-gap residues) - (number of Glycine residues); the
global atom serials are contiguous 1, 2, 3, ...; and a Glycine residue
contributes exactly 4 records N, CA, C, O with no CB and no skipped
serial. -/
theorem matrix_to_pdb_record_count {α : Type} (seq : List Char) (coord : List (List α))
    (h1 : seq.length ≤ 140)
    (h2 : ∀ c ∈ seq, c ∈ ALPHABET)
    (h3 : 140 ≤ coord.length)
    (h4 : ∀ row ∈ coord, 15 ≤ row.length) :
    ∃ recs ifin kfin, matrix_to_pdb seq coord = (recs, ifin, kfin, none) ∧
      recs.length = 5 * countNonGap seq - seq.count 'G' ∧
      recs.map (fun r => r.serial) = List.range' 1 recs.length ∧
      (∀ (row : List α) (i k : Nat), 15 ≤ row.length →
        ∃ grecs, emitAtoms row 'G' i backboneIndexed k = (grecs, k + 4, none) ∧
          grecs.length = 4 ∧
          grecs.map (fun r => r.atomName) = ["N", "CA", "C", "O"] ∧
          grecs.map (fun r => r.serial) = [k, k + 1, k + 2, k + 3]) := by
  have hplen : (pad_seq seq).length = 140 := pad_seq_length seq h1
  obtain ⟨recs, heq, hlen, hser, _, _⟩ :=
    writeLoop_spec coord (pad_seq seq) h4 0 1 1 (by omega) (pad_codes seq h1 h2)
  obtain ⟨hcng, _, hatomp⟩ := count_pad seq h1
  have hrl : recs.length = 5 * countNonGap seq - seq.count 'G' := by
    have h5 := atomCount_eq seq
    rw [hlen, hatomp]
    omega
  refine ⟨recs, 1 + countNonGap (pad_seq seq), 1 + atomCount (pad_seq seq), ?_, hrl, ?_, ?_⟩
  · unfold matrix_to_pdb
    rw [heq]
  · rw [hser, hlen]
  · intro row i k hrow
    refine ⟨_, emitAtoms_spec_G row i k hrow, rfl, rfl, ?_⟩
    norm_num

theorem matrix_to_pdb_record_count_witness :
    ((['A', 'G', 'A'] : List Char).length ≤ 140 ∧
      (∀ c ∈ (['A', 'G', 'A'] : List Char), c ∈ ALPHABET) ∧
      140 ≤ (List.replicate 140 (List.replicate 15 (0 : Nat))).length ∧
      (∀ row ∈ List.replicate 140 (List.replicate 15 (0 : Nat)), 15 ≤ row.length)) ∧
    (∃ recs ifin kfin,
      matrix_to_pdb ['A', 'G', 'A'] (List.replicate 140 (List.replicate 15 (0 : Nat))) =
        (recs, ifin, kfin, none) ∧
      recs.length = 5 * countNonGap ['A', 'G', 'A'] - (['A', 'G', 'A'] : List Char).count 'G' ∧
      recs.map (fun r => r.serial) = List.range' 1 recs.length ∧
      (∀ (row : List Nat) (i k : Nat), 15 ≤ row.length →
        ∃ grecs, emitAtoms row 'G' i backboneIndexed k = (grecs, k + 4, none) ∧
          grecs.length = 4 ∧
          grecs.map (fun r => r.atomName) = ["N", "CA", "C", "O"] ∧
          grecs.map (fun r => r.serial) = [k, k + 1, k + 2, k + 3])) := by
  have hrows : ∀ row ∈ List.replicate 140 (List.replicate 15 (0 : Nat)), 15 ≤ row.length := by
    intro row hrow
    rw [List.eq_of_mem_replicate hrow]
    decide
  exact ⟨⟨by decide, by decide, by decide, hrows⟩,
    matrix_to_pdb_record_count ['A', 'G', 'A'] _ (by decide) (by decide) (by decide) hrows⟩

/-- A contiguous serial range is strictly increasing. -/
theorem range'_pairwise (s n : Nat) :
    (List.range' s n).Pairwise (fun a b => a < b) := by
  induction n generalizing s with
  | zero => simp
  | succ m ih =>
    rw [List.range'_succ]
    refine List.Pairwise.cons ?_ (ih (s + 1))
    intro b hb
    rw [List.mem_range'] at hb
    obtain ⟨j, hj, rfl⟩ := hb
    omega

/-- C4: the writer visits padded positions in order; a gap position
contributes no records and leaves both counters unchanged; a non-gap
position advances the residue serial by exactly one and the atom
serial by the number of records it emits; and in a successful write
the emitted serials are strictly increasing and the residue serials
weakly increasing. -/
theorem matrix_to_pdb_counters {α : Type} (coord : List (List α))
    (hrows : ∀ row ∈ coord, 15 ≤ row.length) :
    (∀ (rest : List Char) (aa i k : Nat),
      writeLoop coord ('-' :: rest) aa i k = writeLoop coord rest (aa + 1) i k) ∧
    (∀ (c : Char) (rest : List Char) (aa i k : Nat) (code : String),
      c ≠ '-' → ∀ haa : aa < coord.length, codeOf c = some code →
      ∃ recs1, emitAtoms (coord.get ⟨aa, haa⟩) c i backboneIndexed k =
          (recs1, k + recs1.length, none) ∧
        (∀ r ∈ recs1, r.resSeq = i) ∧
        writeLoop coord (c :: rest) aa i k =
          (recs1 ++ (writeLoop coord rest (aa + 1) (i + 1) (k + recs1.length)).1,
           (writeLoop coord rest (aa + 1) (i + 1) (k + recs1.length)).2)) ∧
    (∀ (rest : List Char) (aa i k : Nat),
      aa + rest.length ≤ coord.length →
      (∀ c ∈ rest, c ∈ ALPHABET) →
      ∃ recs, writeLoop coord rest aa i k =
          (recs, i + countNonGap rest, k + atomCount rest, none) ∧
        (recs.map (fun r => r.serial)).Pairwise (fun a b => a < b) ∧
        (recs.map (fun r => r.resSeq)).Pairwise (fun a b => a ≤ b)) := by
  refine ⟨fun rest aa i k => writeLoop_gap coord rest aa i k, ?_, ?_⟩
  · intro c rest aa i k code hc haa hcode
    have hrowlen : 15 ≤ (coord.get ⟨aa, haa⟩).length :=
      hrows _ (List.get_mem _ _ _)
    obtain ⟨recs1, hemit, _, _, hres1⟩ :=
      emitAtoms_count (coord.get ⟨aa, haa⟩) c i k code hrowlen hcode
    refine ⟨recs1, hemit, fun r hr => (hres1 r hr).1, ?_⟩
    rcases htail : writeLoop coord rest (aa + 1) (i + 1) (k + recs1.length) with
      ⟨recs2, i2, k2, e2⟩
    have hget : coord[aa]? = some (coord.get ⟨aa, haa⟩) := List.getElem?_eq_getElem haa
    simp only [writeLoop, if_pos hc, hget, hemit, htail]
  · intro rest aa i k hcoord halpha
    obtain ⟨recs, heq, _, hser, _, hsort⟩ :=
      writeLoop_spec coord rest hrows aa i k hcoord
        (fun c hc hne => alphabet_code c (halpha c hc) hne)
    refine ⟨recs, heq, ?_, hsort⟩
    rw [hser]
    exact range'_pairwise k (atomCount rest)

theorem matrix_to_pdb_counters_witness :
    ((∀ row ∈ List.replicate 140 (List.replicate 15 (0 : Nat)), 15 ≤ row.length)) ∧
    (writeLoop (List.replicate 140 (List.replicate 15 (0 : Nat))) ['-', 'A'] 5 2 3 =
      writeLoop (List.replicate 140 (List.replicate 15 (0 : Nat))) ['A'] 6 2 3) ∧
    (∃ recs1,
      emitAtoms ((List.replicate 140 (List.replicate 15 (0 : Nat))).get ⟨7, by decide⟩)
          'A' 2 backboneIndexed 3 = (recs1, 3 + recs1.length, none) ∧
      (∀ r ∈ recs1, r.resSeq = 2) ∧
      writeLoop (List.replicate 140 (List.replicate 15 (0 : Nat))) ['A', 'G'] 7 2 3 =
        (recs1 ++ (writeLoop (List.replicate 140 (List.replicate 15 (0 : Nat)))
          ['G'] 8 3 (3 + recs1.length)).1,
         (writeLoop (List.replicate 140 (List.replicate 15 (0 : Nat)))
          ['G'] 8 3 (3 + recs1.length)).2)) ∧
    (∃ recs, writeLoop (List.replicate 140 (List.replicate 15 (0 : Nat))) ['A', 'G'] 0 1 1 =
        (recs, 1 + countNonGap ['A', 'G'], 1 + atomCount ['A', 'G'], none) ∧
      (recs.map (fun r => r.serial)).Pairwise (fun a b => a < b) ∧
      (recs.map (fun r => r.resSeq)).Pairwise (fun a b => a ≤ b)) := by
  have hrows : ∀ row ∈ List.replicate 140 (List.replicate 15 (0 : Nat)), 15 ≤ row.length := by
    intro row hrow
    rw [List.eq_of_mem_replicate hrow]
    decide
  obtain ⟨hgap, hstep, hrun⟩ := matrix_to_pdb_counters
    (List.replicate 140 (List.replicate 15 (0 : Nat))) hrows
  exact ⟨hrows, hgap ['A'] 5 2 3,
    hstep 'A' ['G'] 7 2 3 "ALA" (by decide) (by decide) (by decide),
    hrun ['A', 'G'] 0 1 1 (by decide) (by decide)⟩

/-- If some non-gap position of the remaining character list falls at
or beyond the end of the coordinate matrix, the loop ends with an
error (it never silently reads out of bounds and never reports
success). -/
theorem writeLoop_missing_row {α : Type} (coord : List (List α)) (rest : List Char) :
    ∀ aa i k off, ∀ hoff : off < rest.length, rest.get ⟨off, hoff⟩ ≠ '-' →
    coord.length ≤ aa + off →
    ((writeLoop coord rest aa i k).2.2.2).isSome := by
  induction rest with
  | nil =>
    intro aa i k off hoff
    exact absurd hoff (by simp)
  | cons c rest ih =>
    intro aa i k off hoff hne hlen
    by_cases hc : c = '-'
    · subst hc
      rw [writeLoop_gap]
      match off with
      | 0 => exact absurd rfl hne
      | off' + 1 =>
        exact ih (aa + 1) i k off' (by simpa using hoff) hne (by omega)
    · rcases hrow : coord[aa]? with _ | row
      · have : writeLoop coord (c :: rest) aa i k = ([], i, k, some PdbError.indexError) := by
          simp only [writeLoop, if_pos hc, hrow]
        rw [this]
        rfl
      · rcases hemit : emitAtoms row c i backboneIndexed k with ⟨recs1, kf, e⟩
        rcases e with _ | err
        · match off with
          | 0 =>
            have : aa < coord.length := by
              by_contra hcon
              rw [List.getElem?_eq_none (by omega)] at hrow
              exact Option.noConfusion hrow
            omega
          | off' + 1 =>
            have hrec := ih (aa + 1) (i + 1) kf off' (by simpa using hoff) hne (by omega)
            rcases htail : writeLoop coord rest (aa + 1) (i + 1) kf with ⟨recs2, i2, k2, e2⟩
            have : writeLoop coord (c :: rest) aa i k = (recs1 ++ recs2, i2, k2, e2) := by
              simp only [writeLoop, if_pos hc, hrow, hemit, htail]
            rw [this]
            rw [htail] at hrec
            exact hrec
        · have : writeLoop coord (c :: rest) aa i k = (recs1, i, kf, some err) := by
            simp only [writeLoop, if_pos hc, hrow, hemit]
          rw [this]
          rfl

/-- C5 amended: a coordinate matrix lacking the row of some non-gap
padded position makes the writer fail with an error (the spec's
ShapeMismatch, a numpy IndexError): it never silently reads out of
bounds and never reports success; however the error is raised only
when the missing row is first read, so records of residues processed
earlier are already on the stream. -/
theorem matrix_to_pdb_short_coord_errors {α : Type} (seq : List Char)
    (coord : List (List α))
    (h : ∃ aa, ∃ ha : aa < (pad_seq seq).length,
      (pad_seq seq).get ⟨aa, ha⟩ ≠ '-' ∧ coord.length ≤ aa) :
    ((matrix_to_pdb seq coord).2.2.2).isSome := by
  obtain ⟨aa, ha, hne, hlen⟩ := h
  exact writeLoop_missing_row coord (pad_seq seq) 0 1 1 aa ha hne (by omega)

theorem matrix_to_pdb_short_coord_errors_witness :
    (∃ aa, ∃ ha : aa < (pad_seq ['A', 'A']).length,
      (pad_seq ['A', 'A']).get ⟨aa, ha⟩ ≠ '-' ∧
      (List.replicate 70 (List.replicate 15 (0 : Nat))).length ≤ aa) ∧
    ((matrix_to_pdb ['A', 'A']
      (List.replicate 70 (List.replicate 15 (0 : Nat)))).2.2.2).isSome := by
  have h : ∃ aa, ∃ ha : aa < (pad_seq ['A', 'A']).length,
      (pad_seq ['A', 'A']).get ⟨aa, ha⟩ ≠ '-' ∧
      (List.replicate 70 (List.replicate 15 (0 : Nat))).length ≤ aa :=
    ⟨70, by decide, by decide, by decide⟩
  exact ⟨h, matrix_to_pdb_short_coord_errors ['A', 'A'] _ h⟩

/-- C5 counterexample: with sequence AA (padded so its residues sit at
positions 69 and 70) and a coordinate matrix of only 70 rows, the
writer does error, but only after the five atom records of the first
residue have already been written to the stream: the claim that the
error comes before any atom record is written is false. -/
theorem matrix_to_pdb_partial_write_counterexample :
    (matrix_to_pdb ['A', 'A']
      (List.replicate 70 (List.replicate 15 (0 : Nat)))).2.2.2 =
        some PdbError.indexError ∧
    (matrix_to_pdb ['A', 'A']
      (List.replicate 70 (List.replicate 15 (0 : Nat)))).1.length = 5 := by
  constructor <;> rfl

/-- C7: a sequence containing the unknown symbol X (otherwise in the
alphabet and within the length bound) raises no fatal error: the
warning fires (a print, not an exception), the encoder succeeds and
one-hot encodes every X position at column 20, the atom loop on an X
residue emits five records all carrying the code UNK, and a full
write over any adequate coordinate matrix ends without error. -/
theorem unknown_x_nonfatal {α : Type} (seq : List Char) (h1 : seq.length ≤ 140)
    (h2 : ∀ c ∈ seq, c ∈ ALPHABET) (h3 : 'X' ∈ seq) :
    has_unknown_warning seq = true ∧
    (∃ m, generate_input seq = some m ∧
      ∀ i, ∀ hi : i < 140,
        (pad_seq seq).get ⟨i, by rw [pad_seq_length seq h1]; exact hi⟩ = 'X' →
        m[i]? = some ((List.replicate FEATURE_NUM 0).set 20 1)) ∧
    (∀ (row : List α) (i k : Nat), 15 ≤ row.length →
      ∃ recs, emitAtoms row 'X' i backboneIndexed k = (recs, k + 5, none) ∧
        recs.length = 5 ∧ ∀ r ∈ recs, r.resName = "UNK") ∧
    (∀ coord : List (List α), 140 ≤ coord.length →
      (∀ row ∈ coord, 15 ≤ row.length) →
      (matrix_to_pdb seq coord).2.2.2 = none) := by
  refine ⟨?_, ?_, ?_, ?_⟩
  · unfold has_unknown_warning
    simpa using h3
  · obtain ⟨m, hm, _, hrows⟩ := generate_input_rows seq h1 h2
    refine ⟨m, hm, ?_⟩
    intro i hi hX
    obtain ⟨idx, hidx, hrow⟩ := hrows i hi
    rw [hX] at hidx
    rw [show AA_DICT 'X' = some 20 from by decide] at hidx
    injection hidx with hidx
    rw [← hidx] at hrow
    exact hrow
  · intro row i k hrow
    obtain ⟨recs, hemit, hlen, _, hres⟩ :=
      emitAtoms_count row 'X' i k "UNK" hrow (by decide)
    rw [if_neg (show ¬(('X' : Char) = 'G') from by decide)] at hlen
    rw [hlen] at hemit
    exact ⟨recs, hemit, hlen, fun r hr => (hres r hr).2⟩
  · intro coord hclen hcrows
    have hplen : (pad_seq seq).length = 140 := pad_seq_length seq h1
    obtain ⟨recs, heq, _⟩ :=
      writeLoop_spec coord (pad_seq seq) hcrows 0 1 1 (by omega) (pad_codes seq h1 h2)
    show (writeLoop coord (pad_seq seq) 0 1 1).2.2.2 = none
    rw [heq]

theorem unknown_x_nonfatal_witness :
    ((['A', 'X'] : List Char).length ≤ 140 ∧
      (∀ c ∈ (['A', 'X'] : List Char), c ∈ ALPHABET) ∧ 'X' ∈ (['A', 'X'] : List Char)) ∧
    (has_unknown_warning ['A', 'X'] = true ∧
    (∃ m, generate_input ['A', 'X'] = some m ∧
      ∀ i, ∀ hi : i < 140,
        (pad_seq ['A', 'X']).get
          ⟨i, by rw [pad_seq_length ['A', 'X'] (by decide)]; exact hi⟩ = 'X' →
        m[i]? = some ((List.replicate FEATURE_NUM 0).set 20 1)) ∧
    (∀ (row : List Nat) (i k : Nat), 15 ≤ row.length →
      ∃ recs, emitAtoms row 'X' i backboneIndexed k = (recs, k + 5, none) ∧
        recs.length = 5 ∧ ∀ r ∈ recs, r.resName = "UNK") ∧
    (∀ coord : List (List Nat), 140 ≤ coord.length →
      (∀ row ∈ coord, 15 ≤ row.length) →
      (matrix_to_pdb ['A', 'X'] coord).2.2.2 = none)) :=
  ⟨⟨by decide, by decide, by decide⟩,
    unknown_x_nonfatal ['A', 'X'] (by decide) (by decide) (by decide)⟩

/-- C10: a sequence that itself contains the gap symbol is accepted by
the encoder, which one-hot encodes that position at column 21; the
writer silently skips the position (no records, counters unchanged);
and the written structure has fewer residues than the sequence has
characters: the final residue count is the non-gap count, strictly
below the sequence length. -/
theorem gap_in_input {α : Type} (seq : List Char) (h1 : seq.length ≤ 140)
    (h2 : ∀ c ∈ seq, c ∈ ALPHABET) (h3 : '-' ∈ seq) :
    (∃ m, generate_input seq = some m ∧
      ∀ j, ∀ hj : j < seq.length, seq.get ⟨j, hj⟩ = '-' →
        m[front_pad seq.length + j]? = some ((List.replicate FEATURE_NUM 0).set 21 1)) ∧
    (∀ (coord : List (List α)) (rest : List Char) (aa i k : Nat),
      writeLoop coord ('-' :: rest) aa i k = writeLoop coord rest (aa + 1) i k) ∧
    countNonGap seq < seq.length ∧
    (∀ coord : List (List α), 140 ≤ coord.length →
      (∀ row ∈ coord, 15 ≤ row.length) →
      ∃ recs kfin, matrix_to_pdb seq coord = (recs, 1 + countNonGap seq, kfin, none) ∧
        recs.length = atomCount seq) := by
  have hfr : front_pad seq.length + seq.length ≤ 140 := by
    unfold front_pad NB_MAX_LENGTH
    omega
  refine ⟨?_, fun coord rest aa i k => writeLoop_gap coord rest aa i k, ?_, ?_⟩
  · obtain ⟨m, hm, _, hrows⟩ := generate_input_rows seq h1 h2
    refine ⟨m, hm, ?_⟩
    intro j hj hgap
    have hi : front_pad seq.length + j < 140 := by omega
    obtain ⟨idx, hidx, hrow⟩ := hrows (front_pad seq.length + j) hi
    have hpad : (pad_seq seq)[front_pad seq.length + j]? = some (seq.get ⟨j, hj⟩) := by
      rw [pad_seq_eq seq h1, List.append_assoc]
      rw [List.getElem?_append_right (by simp)]
      rw [show front_pad seq.length + j - (List.replicate (front_pad seq.length) '-').length
        = j from by simp]
      rw [List.getElem?_append_left hj]
      exact List.getElem?_eq_getElem hj
    rw [List.getElem?_eq_getElem (show front_pad seq.length + j < (pad_seq seq).length from by
      rw [pad_seq_length seq h1]; exact hi)] at hpad
    injection hpad with hpad
    rw [List.get_eq_getElem] at hidx
    rw [hpad, hgap] at hidx
    rw [show AA_DICT '-' = some 21 from by decide] at hidx
    injection hidx with hidx
    rw [← hidx] at hrow
    exact hrow
  · have hle : countNonGap seq ≤ seq.length := by
      unfold countNonGap
      exact List.countP_le_length _
    have hne : countNonGap seq ≠ seq.length := by
      intro he
      unfold countNonGap at he
      have := List.countP_eq_length.mp he '-' h3
      simp at this
    omega
  · intro coord hclen hcrows
    have hplen : (pad_seq seq).length = 140 := pad_seq_length seq h1
    obtain ⟨recs, heq, hlen, _⟩ :=
      writeLoop_spec coord (pad_seq seq) hcrows 0 1 1 (by omega) (pad_codes seq h1 h2)
    obtain ⟨hcng, _, hatomp⟩ := count_pad seq h1
    refine ⟨recs, 1 + atomCount (pad_seq seq), ?_, by rw [hlen, hatomp]⟩
    show writeLoop coord (pad_seq seq) 0 1 1 = _
    rw [heq, hcng]

theorem gap_in_input_witness :
    ((['A', '-', 'G'] : List Char).length ≤ 140 ∧
      (∀ c ∈ (['A', '-', 'G'] : List Char), c ∈ ALPHABET) ∧
      '-' ∈ (['A', '-', 'G'] : List Char)) ∧
    ((∃ m, generate_input ['A', '-', 'G'] = some m ∧
      ∀ j, ∀ hj : j < (['A', '-', 'G'] : List Char).length,
        (['A', '-', 'G'] : List Char).get ⟨j, hj⟩ = '-' →
        m[front_pad (['A', '-', 'G'] : List Char).length + j]? =
          some ((List.replicate FEATURE_NUM 0).set 21 1)) ∧
    (∀ (coord : List (List Nat)) (rest : List Char) (aa i k : Nat),
      writeLoop coord ('-' :: rest) aa i k = writeLoop coord rest (aa + 1) i k) ∧
    countNonGap ['A', '-', 'G'] < (['A', '-', 'G'] : List Char).length ∧
    (∀ coord : List (List Nat), 140 ≤ coord.length →
      (∀ row ∈ coord, 15 ≤ row.length) →
      ∃ recs kfin, matrix_to_pdb ['A', '-', 'G'] coord =
          (recs, 1 + countNonGap ['A', '-', 'G'], kfin, none) ∧
        recs.length = atomCount ['A', '-', 'G'])) :=
  ⟨⟨by decide, by decide, by decide⟩,
    gap_in_input ['A', '-', 'G'] (by decide) (by decide) (by decide)⟩

end NanoNet
